import Mathlib

/-!
Verification of the vote-share simulation kernel of the election analysis
backend (`backend/server.py`, `backend/get_election_results.py`).

Numbers are modelled as exact rationals (`ℚ`).  The Python/NumPy float
operations are translated literally; the one place where the source can
divide zero by zero (producing an IEEE NaN) is modelled by an `Option`
result, with `none` standing for the NaN outcome.
-/

namespace Election

/-- `to_probs` from `calculate_vote_shares` (server.py lines 30-43): a
marginal is normalised by its own sum; a vector whose sum is `<= 0` is
replaced by the uniform distribution `[0.25, 0.25, 0.25, 0.25]`. -/
def to_probs (m : Fin 4 → ℚ) : Fin 4 → ℚ :=
  let s := ∑ i, m i
  if s ≤ 0 then fun _ => 1/4 else fun i => m i / s

/-- The static outcome-weight table `w` of `calculate_vote_shares`
(server.py lines 51-77).  Entry `(i, j)` is the triple
`(wA, wB, wDNV)` for A in category `i` against B in category `j`,
with categories `0=F, 1=N, 2=D, 3=U`. -/
def w (i j : Fin 4) : ℚ × ℚ × ℚ :=
  match i.val, j.val with
  | 0, 0 => (1/2, 1/2, 0)
  | 0, 1 => (1, 0, 0)
  | 0, 2 => (1, 0, 0)
  | 0, 3 => (1, 0, 0)
  | 1, 0 => (0, 1, 0)
  | 1, 1 => (1/3, 1/3, 1/3)
  | 1, 2 => (1, 0, 0)
  | 1, 3 => (1/2, 0, 1/2)
  | 2, 0 => (0, 1, 0)
  | 2, 1 => (0, 1, 0)
  | 2, 2 => (0, 0, 1)
  | 2, 3 => (0, 1/2, 1/2)
  | 3, 0 => (0, 1, 0)
  | 3, 1 => (0, 1/2, 1/2)
  | 3, 2 => (1/2, 0, 1/2)
  | 3, 3 => (0, 0, 1)
  | _, _ => (0, 0, 0)

/-- The accumulated A-vote mass of the double loop in
`calculate_vote_shares` (server.py lines 79-87), applied to already
normalised marginals. -/
def voteA_raw (pA pB : Fin 4 → ℚ) : ℚ := ∑ i, ∑ j, pA i * pB j * (w i j).1

/-- The accumulated B-vote mass of the same loop. -/
def voteB_raw (pA pB : Fin 4 → ℚ) : ℚ := ∑ i, ∑ j, pA i * pB j * (w i j).2.1

/-- The accumulated did-not-vote (abstain) mass of the same loop. -/
def dnv_raw (pA pB : Fin 4 → ℚ) : ℚ := ∑ i, ∑ j, pA i * pB j * (w i j).2.2

/-- `total = voteA + voteB + dnv` (server.py line 90), the drift-correction
denominator. -/
def total (pA pB : Fin 4 → ℚ) : ℚ := voteA_raw pA pB + voteB_raw pA pB + dnv_raw pA pB

/-- `voteA` after the drift correction `if total > 0: voteA /= total`
(server.py lines 91-94). -/
def voteA_n (pA pB : Fin 4 → ℚ) : ℚ :=
  if 0 < total pA pB then voteA_raw pA pB / total pA pB else voteA_raw pA pB

/-- `voteB` after the drift correction. -/
def voteB_n (pA pB : Fin 4 → ℚ) : ℚ :=
  if 0 < total pA pB then voteB_raw pA pB / total pA pB else voteB_raw pA pB

/-- `dnv` after the drift correction. -/
def dnv_n (pA pB : Fin 4 → ℚ) : ℚ :=
  if 0 < total pA pB then dnv_raw pA pB / total pA pB else dnv_raw pA pB

/-- `turnout = (1 - dnv)` (server.py line 96). -/
def turnout (pA pB : Fin 4 → ℚ) : ℚ := 1 - dnv_n pA pB

/-- `calculate_vote_shares` (server.py lines 21-99).  The source then
computes `voteA = 100.0 * voteA/turnout` and `voteB = 100.0 * voteB/turnout`
unconditionally; when `turnout` is exactly `0` the NumPy division `0.0/0.0`
yields NaN, which exact rationals cannot represent — that case is modelled
as `none`.  Otherwise the result is
`some (vote_A_pct, vote_B_pct, turnout)`. -/
def calculate_vote_shares (margA margB : Fin 4 → ℚ) : Option (ℚ × ℚ × ℚ) :=
  let pA := to_probs margA
  let pB := to_probs margB
  if turnout pA pB = 0 then none
  else some (100 * voteA_n pA pB / turnout pA pB,
             100 * voteB_n pA pB / turnout pA pB,
             turnout pA pB)

/-- Row `F` of the outcome table, as a vector of triples. -/
theorem w_apply_0 (j : Fin 4) :
    w 0 j = ![((1:ℚ)/2, (1:ℚ)/2, (0:ℚ)), (1, 0, 0), (1, 0, 0), (1, 0, 0)] j := by
  fin_cases j <;> rfl

/-- Row `N` of the outcome table. -/
theorem w_apply_1 (j : Fin 4) :
    w 1 j = ![((0:ℚ), (1:ℚ), (0:ℚ)), (1/3, 1/3, 1/3), (1, 0, 0), (1/2, 0, 1/2)] j := by
  fin_cases j <;> rfl

/-- Row `D` of the outcome table. -/
theorem w_apply_2 (j : Fin 4) :
    w 2 j = ![((0:ℚ), (1:ℚ), (0:ℚ)), (0, 1, 0), (0, 0, 1), (0, 1/2, 1/2)] j := by
  fin_cases j <;> rfl

/-- Row `U` of the outcome table. -/
theorem w_apply_3 (j : Fin 4) :
    w 3 j = ![((0:ℚ), (1:ℚ), (0:ℚ)), (0, 1/2, 1/2), (1/2, 0, 1/2), (0, 0, 1)] j := by
  fin_cases j <;> rfl

/-- C7: the static 16-cell outcome-weight table is exactly antisymmetric
under role swap: for every ordered pair `(i, j)` the triple at `(i, j)`
equals the triple at `(j, i)` with its A and B weights swapped. -/
theorem outcome_matrix_antisymmetric :
    ∀ i j : Fin 4,
      (w i j).1 = (w j i).2.1 ∧ (w i j).2.1 = (w j i).1 ∧ (w i j).2.2 = (w j i).2.2 := by
  intro i j
  fin_cases i <;> fin_cases j <;> exact ⟨rfl, rfl, rfl⟩

/-- Normalising the all-unknown marginal is the identity (its sum is 1). -/
theorem to_probs_all_unknown : to_probs ![0, 0, 0, 1] = ![0, 0, 0, 1] := by
  funext i
  fin_cases i <;> simp [to_probs, Fin.sum_univ_four] <;> norm_num

/-- C1: at the all-unknown marginals produced by `recognition = 0` on both
sides, `calculate_vote_shares` reaches `turnout = 0` and divides zero by
zero (NaN, modelled as `none`); it does not fall back to a 50/50 split and
carries no low-confidence marker. -/
theorem zero_turnout_divides_by_zero :
    turnout (to_probs ![0, 0, 0, 1]) (to_probs ![0, 0, 0, 1]) = 0 ∧
      calculate_vote_shares ![0, 0, 0, 1] ![0, 0, 0, 1] = none := by
  have ht : turnout (to_probs ![0, 0, 0, 1]) (to_probs ![0, 0, 0, 1]) = 0 := by
    rw [to_probs_all_unknown]
    norm_num [turnout, dnv_n, total, dnv_raw, voteA_raw, voteB_raw, Fin.sum_univ_four,
      w_apply_0, w_apply_1, w_apply_2, w_apply_3]
  refine ⟨ht, ?_⟩
  simp only [calculate_vote_shares]
  rw [if_pos ht]

/-- Swapping the two marginals turns the accumulated A-vote mass into the
accumulated B-vote mass: the pointwise face of the table antisymmetry. -/
theorem voteA_raw_swap (pA pB : Fin 4 → ℚ) : voteA_raw pA pB = voteB_raw pB pA := by
  simp only [voteA_raw, voteB_raw, Fin.sum_univ_four,
    w_apply_0, w_apply_1, w_apply_2, w_apply_3]
  norm_num
  ring

/-- The abstain mass is symmetric in the two marginals. -/
theorem dnv_raw_swap (pA pB : Fin 4 → ℚ) : dnv_raw pA pB = dnv_raw pB pA := by
  simp only [dnv_raw, Fin.sum_univ_four, w_apply_0, w_apply_1, w_apply_2, w_apply_3]
  norm_num
  ring

/-- Every cell's three weights sum to 1, so the drift-correction
denominator is the product of the two marginals' sums. -/
theorem total_eq_mul_sums (pA pB : Fin 4 → ℚ) :
    total pA pB = (∑ i, pA i) * (∑ i, pB i) := by
  simp only [total, voteA_raw, voteB_raw, dnv_raw, Fin.sum_univ_four,
    w_apply_0, w_apply_1, w_apply_2, w_apply_3]
  norm_num
  ring

/-- The drift-correction denominator is symmetric in the two marginals. -/
theorem total_swap (pA pB : Fin 4 → ℚ) : total pA pB = total pB pA := by
  rw [total_eq_mul_sums, total_eq_mul_sums, mul_comm]

/-- The drift-corrected abstain mass is symmetric. -/
theorem dnv_n_swap (pA pB : Fin 4 → ℚ) : dnv_n pA pB = dnv_n pB pA := by
  rw [dnv_n, dnv_n, dnv_raw_swap pA pB, total_swap pA pB]

/-- Turnout is symmetric in the two marginals. -/
theorem turnout_swap (pA pB : Fin 4 → ℚ) : turnout pA pB = turnout pB pA := by
  rw [turnout, turnout, dnv_n_swap]

/-- The drift-corrected A-vote mass becomes the B-vote mass under swap. -/
theorem voteA_n_swap (pA pB : Fin 4 → ℚ) : voteA_n pA pB = voteB_n pB pA := by
  rw [voteA_n, voteB_n, voteA_raw_swap pA pB, total_swap pA pB]

/-- C3: swapping the two input marginals swaps the two vote-share
percentages: the A-side share of `calculate_vote_shares pA pB` equals the
B-side share of `calculate_vote_shares pB pA` (and when one call hits the
zero-turnout NaN, so does the other). -/
theorem vote_share_symmetry (mA mB : Fin 4 → ℚ) :
    (calculate_vote_shares mA mB).map (fun r => r.1)
      = (calculate_vote_shares mB mA).map (fun r => r.2.1) := by
  simp only [calculate_vote_shares]
  rw [turnout_swap (to_probs mB) (to_probs mA),
    voteA_n_swap (to_probs mA) (to_probs mB)]
  split_ifs <;> simp

/-- Every `to_probs` output sums to exactly 1. -/
theorem sum_to_probs (m : Fin 4 → ℚ) : ∑ i, to_probs m i = 1 := by
  simp only [to_probs]
  split_ifs with h
  · simp [Fin.sum_univ_four]
  · rw [← Finset.sum_div]
    push_neg at h
    exact div_self (ne_of_gt h)

/-- On normalised marginals the drift-correction denominator is exactly 1. -/
theorem total_to_probs (mA mB : Fin 4 → ℚ) :
    total (to_probs mA) (to_probs mB) = 1 := by
  rw [total_eq_mul_sums, sum_to_probs, sum_to_probs, mul_one]

/-- On normalised marginals the drift correction divides by 1. -/
theorem voteA_n_to_probs (mA mB : Fin 4 → ℚ) :
    voteA_n (to_probs mA) (to_probs mB) = voteA_raw (to_probs mA) (to_probs mB) := by
  rw [voteA_n, total_to_probs]
  norm_num

/-- Same fact for the B-vote mass. -/
theorem voteB_n_to_probs (mA mB : Fin 4 → ℚ) :
    voteB_n (to_probs mA) (to_probs mB) = voteB_raw (to_probs mA) (to_probs mB) := by
  rw [voteB_n, total_to_probs]
  norm_num

/-- Same fact for the abstain mass. -/
theorem dnv_n_to_probs (mA mB : Fin 4 → ℚ) :
    dnv_n (to_probs mA) (to_probs mB) = dnv_raw (to_probs mA) (to_probs mB) := by
  rw [dnv_n, total_to_probs]
  norm_num

/-- The decided masses sum to the turnout. -/
theorem votes_add_to_turnout (mA mB : Fin 4 → ℚ) :
    voteA_n (to_probs mA) (to_probs mB) + voteB_n (to_probs mA) (to_probs mB)
      = turnout (to_probs mA) (to_probs mB) := by
  have h := total_to_probs mA mB
  rw [total] at h
  rw [voteA_n_to_probs, voteB_n_to_probs, turnout, dnv_n_to_probs]
  linarith

/-- C4: whenever the turnout is positive, `calculate_vote_shares` returns
`voteSharePctA = 100 * voteA / turnout` and
`voteSharePctB = 100 * voteB / turnout`, and the two percentages sum to
exactly 100. -/
theorem vote_share_formula (mA mB : Fin 4 → ℚ)
    (h : 0 < turnout (to_probs mA) (to_probs mB)) :
    calculate_vote_shares mA mB =
      some (100 * voteA_n (to_probs mA) (to_probs mB) / turnout (to_probs mA) (to_probs mB),
            100 * voteB_n (to_probs mA) (to_probs mB) / turnout (to_probs mA) (to_probs mB),
            turnout (to_probs mA) (to_probs mB)) ∧
      100 * voteA_n (to_probs mA) (to_probs mB) / turnout (to_probs mA) (to_probs mB) +
        100 * voteB_n (to_probs mA) (to_probs mB) / turnout (to_probs mA) (to_probs mB)
        = 100 := by
  constructor
  · simp only [calculate_vote_shares]
    rw [if_neg h.ne']
  · rw [div_add_div_same, ← mul_add, votes_add_to_turnout,
      mul_div_assoc, div_self h.ne', mul_one]

/-- Normalising the all-favorable marginal is the identity. -/
theorem to_probs_all_favorable : to_probs ![1, 0, 0, 0] = ![1, 0, 0, 0] := by
  funext i
  fin_cases i <;> simp [to_probs, Fin.sum_univ_four] <;> norm_num

/-- Witness for C4 at the all-favorable marginals on both sides: turnout
is 1 there and the shares are 50/50, summing to 100. -/
theorem vote_share_formula_witness :
    0 < turnout (to_probs ![1, 0, 0, 0]) (to_probs ![1, 0, 0, 0]) ∧
      (calculate_vote_shares ![1, 0, 0, 0] ![1, 0, 0, 0] =
        some (100 * voteA_n (to_probs ![1, 0, 0, 0]) (to_probs ![1, 0, 0, 0]) /
                turnout (to_probs ![1, 0, 0, 0]) (to_probs ![1, 0, 0, 0]),
              100 * voteB_n (to_probs ![1, 0, 0, 0]) (to_probs ![1, 0, 0, 0]) /
                turnout (to_probs ![1, 0, 0, 0]) (to_probs ![1, 0, 0, 0]),
              turnout (to_probs ![1, 0, 0, 0]) (to_probs ![1, 0, 0, 0])) ∧
        100 * voteA_n (to_probs ![1, 0, 0, 0]) (to_probs ![1, 0, 0, 0]) /
            turnout (to_probs ![1, 0, 0, 0]) (to_probs ![1, 0, 0, 0]) +
          100 * voteB_n (to_probs ![1, 0, 0, 0]) (to_probs ![1, 0, 0, 0]) /
            turnout (to_probs ![1, 0, 0, 0]) (to_probs ![1, 0, 0, 0]) = 100) := by
  have h : 0 < turnout (to_probs ![1, 0, 0, 0]) (to_probs ![1, 0, 0, 0]) := by
    rw [to_probs_all_favorable]
    norm_num [turnout, dnv_n, total, dnv_raw, voteA_raw, voteB_raw, Fin.sum_univ_four,
      w_apply_0, w_apply_1, w_apply_2, w_apply_3]
  exact ⟨h, vote_share_formula ![1, 0, 0, 0] ![1, 0, 0, 0] h⟩

/-- `unknown_frac` from `calculate_vote_split` (server.py lines 378-379):
`(1.0 - x) ** 2`. -/
def unknown_frac (x : ℚ) : ℚ := (1 - x) ^ 2

/-- `neutral_frac` (server.py lines 381-383):
`max(0.0, (1.0 - u) * (1.0 - x))` with `u = unknown_frac(x)`. -/
def neutral_frac (x : ℚ) : ℚ := max 0 ((1 - unknown_frac x) * (1 - x))

/-- `build_four_point_favorability` (server.py lines 385-398): builds the
four-point marginal `[fav, neu, unf, unk]` and normalises it, replacing a
non-positive-sum vector by the uniform distribution. -/
def build_four_point_favorability (recognition favorability : ℚ) : Fin 4 → ℚ :=
  let u := unknown_frac recognition
  let n := neutral_frac recognition
  let approval_split := (1 + favorability) / 2
  let rem := max 0 (1 - u - n)
  let f := max 0 (rem * approval_split)
  let uf := max 0 (rem - f)
  let probs : Fin 4 → ℚ := ![f, n, uf, u]
  let s := ∑ i, probs i
  if s ≤ 0 then ![1/4, 1/4, 1/4, 1/4] else fun i => probs i / s

/-- C9: for all `recognition ∈ [0, 1]`,
`unknown_frac recognition + neutral_frac recognition ≤ 1`. -/
theorem unknown_add_neutral_le_one (x : ℚ) (h0 : 0 ≤ x) (h1 : x ≤ 1) :
    unknown_frac x + neutral_frac x ≤ 1 := by
  have hu1 : unknown_frac x ≤ 1 := by
    rw [unknown_frac]
    nlinarith
  have key : neutral_frac x ≤ 1 - unknown_frac x := by
    rw [neutral_frac]
    apply max_le
    · linarith
    · have ha : 0 ≤ 1 - unknown_frac x := by linarith
      nlinarith [mul_nonneg ha h0]
  linarith

/-- Witness for C9 at `recognition = 1/2`. -/
theorem unknown_add_neutral_le_one_witness :
    (0:ℚ) ≤ 1/2 ∧ (1/2:ℚ) ≤ 1 ∧ unknown_frac (1/2) + neutral_frac (1/2) ≤ 1 :=
  ⟨by norm_num, by norm_num,
    unknown_add_neutral_le_one (1/2) (by norm_num) (by norm_num)⟩

/-- C2: for every recognition and favorability input — out-of-domain values
included, nothing rejected — `build_four_point_favorability` returns a
4-entry vector with non-negative entries summing to exactly 1. -/
theorem build_marginal_valid (recognition favorability : ℚ) :
    (∀ i, 0 ≤ build_four_point_favorability recognition favorability i) ∧
      ∑ i, build_four_point_favorability recognition favorability i = 1 := by
  simp only [build_four_point_favorability]
  split_ifs with h
  · constructor
    · intro i
      fin_cases i <;> norm_num
    · simp [Fin.sum_univ_four]
      norm_num
  · push_neg at h
    constructor
    · intro i
      apply div_nonneg _ h.le
      fin_cases i
      · exact le_max_left _ _
      · exact le_max_left _ _
      · exact le_max_left _ _
      · exact sq_nonneg _
    · rw [← Finset.sum_div]
      exact div_self (ne_of_gt h)

/-- `calculate_demographic_bonus` (server.py lines 310-346).  The source
looks the two similarity scores up in the DSA result dictionary and
returns `(0.0, 0.0)` when either is absent; the two lookups are modelled
as an `Option` pair.  On present data it clamps
`diff * bonus_multiplier` and `-diff * bonus_multiplier` to
`[-bonus_multiplier, bonus_multiplier]` by `min (max ...)` exactly as the
source does. -/
def calculate_demographic_bonus (demo_sims : Option (ℚ × ℚ))
    (bonus_multiplier : ℚ) : ℚ × ℚ :=
  match demo_sims with
  | none => (0, 0)
  | some sims =>
    let diff := sims.1 - sims.2
    (min (max (diff * bonus_multiplier) (-bonus_multiplier)) bonus_multiplier,
     min (max (-diff * bonus_multiplier) (-bonus_multiplier)) bonus_multiplier)

/-- C8: for all similarity inputs (absent data giving exactly `(0, 0)`)
and every multiplier in `[0, 1]`, the bonus pair satisfies
`|bonusA| ≤ multiplier` and `bonusA + bonusB = 0`. -/
theorem demographic_bonus_bounded (demo_sims : Option (ℚ × ℚ)) (m : ℚ)
    (h0 : 0 ≤ m) (h1 : m ≤ 1) :
    |(calculate_demographic_bonus demo_sims m).1| ≤ m ∧
      (calculate_demographic_bonus demo_sims m).1 +
        (calculate_demographic_bonus demo_sims m).2 = 0 := by
  cases demo_sims with
  | none =>
    simp only [calculate_demographic_bonus]
    rw [abs_zero]
    exact ⟨h0, by norm_num⟩
  | some sims =>
    simp only [calculate_demographic_bonus, neg_mul]
    constructor
    · rw [abs_le]
      refine ⟨le_min (le_max_right _ _) (by linarith), min_le_right _ _⟩
    · rcases le_total ((sims.1 - sims.2) * m) (-m) with hd | hd <;>
        rcases le_total ((sims.1 - sims.2) * m) m with he | he <;>
          simp [min_def, max_def] <;> split_ifs <;> linarith

/-- Witness for C8 at similarities `(1, 0)` and the default multiplier
`0.3`. -/
theorem demographic_bonus_bounded_witness :
    (0:ℚ) ≤ 3/10 ∧ (3/10:ℚ) ≤ 1 ∧
      (|(calculate_demographic_bonus (some (1, 0)) (3/10)).1| ≤ 3/10 ∧
        (calculate_demographic_bonus (some (1, 0)) (3/10)).1 +
          (calculate_demographic_bonus (some (1, 0)) (3/10)).2 = 0) :=
  ⟨by norm_num, by norm_num,
    demographic_bonus_bounded (some (1, 0)) (3/10) (by norm_num) (by norm_num)⟩

/-- Scaling a marginal with positive sum by a positive constant does not
change its normalisation. -/
theorem to_probs_smul (m : Fin 4 → ℚ) (c : ℚ) (hc : 0 < c) (hm : 0 < ∑ i, m i) :
    to_probs (fun i => c * m i) = to_probs m := by
  have hs : ∑ i, c * m i = c * ∑ i, m i := by rw [Finset.mul_sum]
  funext i
  simp only [to_probs, hs]
  rw [if_neg (not_le.mpr (mul_pos hc hm)), if_neg (not_le.mpr hm),
    mul_div_mul_left _ _ (ne_of_gt hc)]

/-- C10: `calculate_vote_shares` renormalises each input by its own sum,
so scaling either input marginal by a positive constant leaves the result
unchanged — the result depends only on each input's direction. -/
theorem vote_share_scale_invariant (mA mB : Fin 4 → ℚ) (c : ℚ)
    (hA : ∀ i, 0 ≤ mA i) (hB : ∀ i, 0 ≤ mB i)
    (hsA : 0 < ∑ i, mA i) (hsB : 0 < ∑ i, mB i) (hc : 0 < c) :
    calculate_vote_shares (fun i => c * mA i) mB = calculate_vote_shares mA mB ∧
      calculate_vote_shares mA (fun i => c * mB i) = calculate_vote_shares mA mB := by
  constructor
  · simp only [calculate_vote_shares, to_probs_smul mA c hc hsA]
  · simp only [calculate_vote_shares, to_probs_smul mB c hc hsB]

/-- Witness for C10: doubling the all-favorable marginal. -/
theorem vote_share_scale_invariant_witness :
    (∀ i, (0:ℚ) ≤ (![1, 0, 0, 0] : Fin 4 → ℚ) i) ∧
      (0:ℚ) < ∑ i, (![1, 0, 0, 0] : Fin 4 → ℚ) i ∧ (0:ℚ) < 2 ∧
      (calculate_vote_shares (fun i => 2 * (![1, 0, 0, 0] : Fin 4 → ℚ) i) ![1, 0, 0, 0]
          = calculate_vote_shares ![1, 0, 0, 0] ![1, 0, 0, 0] ∧
        calculate_vote_shares ![1, 0, 0, 0] (fun i => 2 * (![1, 0, 0, 0] : Fin 4 → ℚ) i)
          = calculate_vote_shares ![1, 0, 0, 0] ![1, 0, 0, 0]) := by
  have hA : ∀ i, (0:ℚ) ≤ (![1, 0, 0, 0] : Fin 4 → ℚ) i := by
    intro i
    fin_cases i <;> norm_num
  have hs : (0:ℚ) < ∑ i, (![1, 0, 0, 0] : Fin 4 → ℚ) i := by
    simp [Fin.sum_univ_four]
  exact ⟨hA, hs, by norm_num,
    vote_share_scale_invariant ![1, 0, 0, 0] ![1, 0, 0, 0] 2 hA hA hs hs (by norm_num)⟩

/-- Per-segment data entering the state-level accumulation loop of
`get_combined_analysis` (server.py lines 530-568): the demographic's
population share `percent` and the vote split `(pct1, pct2, turnout)`
that `calculate_vote_split` produced for it. -/
structure SegmentResult where
  percent : ℚ
  pct1 : ℚ
  pct2 : ℚ
  turnout : ℚ

/-- One iteration of the accumulation loop (server.py lines 553-557):
`w = percent`; `c1_sum += pct1 * w * turnout`;
`c2_sum += pct2 * w * turnout`; `total_turnout += w * turnout`. -/
def state_acc_step (acc : ℚ × ℚ × ℚ) (seg : SegmentResult) : ℚ × ℚ × ℚ :=
  (acc.1 + seg.pct1 * seg.percent * seg.turnout,
   acc.2.1 + seg.pct2 * seg.percent * seg.turnout,
   acc.2.2 + seg.percent * seg.turnout)

/-- The state-level vote split (server.py lines 566-568):
`pct1 = c1_sum / max(total_turnout, 1e-6)` and similarly `pct2`, starting
from zero accumulators. -/
def state_vote_split (segs : List SegmentResult) : ℚ × ℚ :=
  let acc := segs.foldl state_acc_step (0, 0, 0)
  (acc.1 / max acc.2.2 (1/1000000), acc.2.1 / max acc.2.2 (1/1000000))

/-- The weighted sum `Σ pct1 * percent * turnout` over the segments. -/
def c1_weighted_sum (segs : List SegmentResult) : ℚ :=
  (segs.map (fun seg => seg.pct1 * seg.percent * seg.turnout)).sum

/-- The weighted sum `Σ pct2 * percent * turnout` over the segments. -/
def c2_weighted_sum (segs : List SegmentResult) : ℚ :=
  (segs.map (fun seg => seg.pct2 * seg.percent * seg.turnout)).sum

/-- The total weight `Σ percent * turnout` over the segments. -/
def weight_total (segs : List SegmentResult) : ℚ :=
  (segs.map (fun seg => seg.percent * seg.turnout)).sum

/-- The accumulation loop computes exactly the three weighted sums. -/
theorem state_foldl_eq (segs : List SegmentResult) (a : ℚ × ℚ × ℚ) :
    segs.foldl state_acc_step a =
      (a.1 + c1_weighted_sum segs, a.2.1 + c2_weighted_sum segs,
        a.2.2 + weight_total segs) := by
  induction segs generalizing a with
  | nil => simp [c1_weighted_sum, c2_weighted_sum, weight_total]
  | cons seg rest ih =>
    rw [List.foldl_cons, ih]
    simp only [state_acc_step, c1_weighted_sum, c2_weighted_sum, weight_total,
      List.map_cons, List.sum_cons, Prod.mk.injEq]
    exact ⟨by ring, by ring, by ring⟩

/-- C5 counterexample: a region whose single segment has population share
33 and turnout 0 has `weightTotal = 0`, and the code then divides the zero
sums by the `1e-6` floor, producing `(0, 0)` — not the claimed 50/50
low-confidence fallback. -/
theorem state_split_no_fifty_fallback :
    weight_total [⟨33, 50, 50, 0⟩] = 0 ∧
      state_vote_split [⟨33, 50, 50, 0⟩] = (0, 0) ∧
      state_vote_split [⟨33, 50, 50, 0⟩] ≠ (50, 50) := by
  refine ⟨by norm_num [weight_total], ?_, ?_⟩ <;>
    norm_num [state_vote_split, state_acc_step, Prod.ext_iff]

/-- C5 (amended): the region vote shares are the weighted sums divided by
`max(weightTotal, 1e-6)` with `weight = populationSharePct * turnout` per
segment; whenever `weightTotal ≥ 1e-6` this is exactly
`sumA / weightTotal` and `sumB / weightTotal` as claimed, and there is no
50/50 fallback branch. -/
theorem state_split_weighted_average (segs : List SegmentResult) :
    state_vote_split segs =
      (c1_weighted_sum segs / max (weight_total segs) (1/1000000),
        c2_weighted_sum segs / max (weight_total segs) (1/1000000)) ∧
      (1/1000000 ≤ weight_total segs →
        state_vote_split segs =
          (c1_weighted_sum segs / weight_total segs,
            c2_weighted_sum segs / weight_total segs)) := by
  have hbase : state_vote_split segs =
      (c1_weighted_sum segs / max (weight_total segs) (1/1000000),
        c2_weighted_sum segs / max (weight_total segs) (1/1000000)) := by
    simp only [state_vote_split, state_foldl_eq segs (0, 0, 0)]
    norm_num
  refine ⟨hbase, fun h => ?_⟩
  rw [hbase, max_eq_left h]

/-- Witness for C5 (amended) at one segment of population share 100,
split 60/40 and turnout 1: the weighted average is `(60, 40)`. -/
theorem state_split_weighted_average_witness :
    (1:ℚ)/1000000 ≤ weight_total [⟨100, 60, 40, 1⟩] ∧
      state_vote_split [⟨100, 60, 40, 1⟩] =
        (c1_weighted_sum [⟨100, 60, 40, 1⟩] / weight_total [⟨100, 60, 40, 1⟩],
          c2_weighted_sum [⟨100, 60, 40, 1⟩] / weight_total [⟨100, 60, 40, 1⟩]) :=
  ⟨by norm_num [weight_total],
    (state_split_weighted_average [⟨100, 60, 40, 1⟩]).2 (by norm_num [weight_total])⟩

/-- The two entities of a comparison, `choice1` and `choice2`.  The
winners fed to `_tally_electoral` come from `_winner_and_color`
(server.py lines 482-487), which only ever returns `choice1`, `choice2`
or `None`. -/
inductive Winner where
  | A
  | B
  deriving DecidableEq

/-- One region's row for the tally: its winner (if determined) and the
two unit-count lookups `search_results.get('electoral_college', {}).get(state)`
and `search_results.get('ELECTORAL_COLLEGE', {}).get(state)`
(server.py line 493). -/
structure StateEntry where
  winner : Option Winner
  units1 : Option ℕ
  units2 : Option ℕ

/-- The unit count for one region (server.py lines 493-495): Python
`votes = get(...) or get(...)` falls through on `None` and on `0`, and
`if not votes: votes = 0` maps a missing result to `0`. -/
def py_or_votes (u1 u2 : Option ℕ) : ℕ :=
  match u1 with
  | some v => if v = 0 then u2.getD 0 else v
  | none => u2.getD 0

/-- One iteration of the `_tally_electoral` loop (server.py lines
491-496): regions with no winner are skipped, otherwise the winner's
running total grows by the region's unit count. -/
def tally_step (acc : ℕ × ℕ) (e : StateEntry) : ℕ × ℕ :=
  match e.winner with
  | none => acc
  | some Winner.A => (acc.1 + py_or_votes e.units1 e.units2, acc.2)
  | some Winner.B => (acc.1, acc.2 + py_or_votes e.units1 e.units2)

/-- `_tally_electoral` (server.py lines 489-497), starting from the
zero-initialised tally `{c1: 0, c2: 0}`. -/
def tally_electoral (entries : List StateEntry) : ℕ × ℕ :=
  entries.foldl tally_step (0, 0)

/-- The national winner (get_election_results.py line 153):
`max(electoral_tally.items(), key=lambda x: x[1])[0]` over the
insertion-ordered two-entry tally returns the second entity exactly when
its total is strictly greater, else the first. -/
def national_winner (t : ℕ × ℕ) : Winner :=
  if t.1 < t.2 then Winner.B else Winner.A

/-- The unit counts contributed to entity A: regions won by A contribute
their unit count, all others contribute 0. -/
def tally_A_units (entries : List StateEntry) : ℕ :=
  (entries.map (fun e =>
    match e.winner with
    | some Winner.A => py_or_votes e.units1 e.units2
    | _ => 0)).sum

/-- The unit counts contributed to entity B. -/
def tally_B_units (entries : List StateEntry) : ℕ :=
  (entries.map (fun e =>
    match e.winner with
    | some Winner.B => py_or_votes e.units1 e.units2
    | _ => 0)).sum

/-- The tally loop computes exactly the per-entity unit sums. -/
theorem tally_foldl_eq (entries : List StateEntry) (a : ℕ × ℕ) :
    entries.foldl tally_step a =
      (a.1 + tally_A_units entries, a.2 + tally_B_units entries) := by
  induction entries generalizing a with
  | nil => simp [tally_A_units, tally_B_units]
  | cons e rest ih =>
    rw [List.foldl_cons, ih]
    cases hw : e.winner with
    | none =>
      simp only [tally_step, hw, tally_A_units, tally_B_units, List.map_cons,
        List.sum_cons, Prod.mk.injEq]
      omega
    | some x =>
      cases x <;>
        simp only [tally_step, hw, tally_A_units, tally_B_units, List.map_cons,
          List.sum_cons, Prod.mk.injEq] <;>
        omega

/-- C6: `_tally_electoral` adds, for each region with a determined winner,
that region's unit count to the winner's total; regions with winner `None`
or a missing unit count contribute 0, and the national winner is the
entity with the strictly greater total. -/
theorem tally_electoral_correct (entries : List StateEntry) :
    tally_electoral entries = (tally_A_units entries, tally_B_units entries) ∧
      (tally_B_units entries < tally_A_units entries →
        national_winner (tally_electoral entries) = Winner.A) ∧
      (tally_A_units entries < tally_B_units entries →
        national_winner (tally_electoral entries) = Winner.B) := by
  have hbase : tally_electoral entries
      = (tally_A_units entries, tally_B_units entries) := by
    rw [tally_electoral, tally_foldl_eq]
    simp
  refine ⟨hbase, fun h => ?_, fun h => ?_⟩
  · rw [hbase, national_winner, if_neg (by omega)]
  · rw [hbase, national_winner, if_pos (by omega)]

/-- Witness for C6: the claim's region set
`{R1: winner=X, unit=10; R2: winner=Y, unit=5; R3: winner=None, unit=8}`
tallies to `{X: 10, Y: 5}` with national winner `X`. -/
theorem tally_electoral_correct_witness :
    tally_B_units [⟨some Winner.A, some 10, none⟩, ⟨some Winner.B, some 5, none⟩,
        ⟨none, some 8, none⟩]
      < tally_A_units [⟨some Winner.A, some 10, none⟩, ⟨some Winner.B, some 5, none⟩,
        ⟨none, some 8, none⟩] ∧
    tally_electoral [⟨some Winner.A, some 10, none⟩, ⟨some Winner.B, some 5, none⟩,
        ⟨none, some 8, none⟩] = (10, 5) ∧
    national_winner (tally_electoral [⟨some Winner.A, some 10, none⟩,
        ⟨some Winner.B, some 5, none⟩, ⟨none, some 8, none⟩]) = Winner.A :=
  ⟨by decide, by decide,
    (tally_electoral_correct [⟨some Winner.A, some 10, none⟩,
      ⟨some Winner.B, some 5, none⟩, ⟨none, some 8, none⟩]).2.1 (by decide)⟩

end Election
